import Mathlib

/-!
Verification of the contact/address-book manager's core services against
their specification.

The development shallowly embeds the repository's Python code:
* `src/utils/validators.py` — tag normalization and validation (`normalize_tag`,
  `is_valid_tag`, `split_tags_string`), translated here over `String`/`List Char`
  with Python's whitespace and case handling restricted to ASCII.
* `src/services/note_service.py` — the `NoteService` operations, translated as
  explicit state-passing functions over an in-memory address book.
* The contact service (`src/services/contact_service.py`) and the model classes
  (`record.py`, `address_book.py`) are not part of the available sources; the
  definitions that stand in for them are modelled from the specification and
  are marked `Modelled from the spec:` in their doc comments.

Machine integers do not occur: Python integers are unbounded and are embedded
as `Nat`/`Int`.
-/

/-! ## Definitions -/

/-- The whitespace characters recognized by Python's `str.strip()` /
`str.split()` with no argument, restricted to ASCII: space (32), tab (9),
newline (10), carriage return (13), vertical tab (11), form feed (12). -/
def isPySpace (c : Char) : Bool :=
  decide (c.toNat = 32 ∨ c.toNat = 9 ∨ c.toNat = 10 ∨ c.toNat = 13 ∨
          c.toNat = 11 ∨ c.toNat = 12)

/-- ASCII lower-casing on code points: the codes 65–90 (`A`–`Z`) are shifted
by 32 to 97–122 (`a`–`z`); everything else is unchanged. -/
def lowerNat (n : Nat) : Nat :=
  if 65 ≤ n ∧ n ≤ 90 then n + 32 else n

/-- Python `str.lower()` on one character, restricted to the ASCII letters. -/
def pyLower (c : Char) : Char :=
  Char.ofNat (lowerNat c.toNat)

/-- Helper for `pySplit`: `acc` holds the current run of non-whitespace
characters, in reverse. -/
def pySplitAux : List Char → List Char → List (List Char)
  | [], acc => if acc.isEmpty then [] else [acc.reverse]
  | c :: cs, acc =>
    if isPySpace c then
      if acc.isEmpty then pySplitAux cs []
      else acc.reverse :: pySplitAux cs []
    else pySplitAux cs (c :: acc)

/-- Python `s.split()` with no argument: the maximal runs of non-whitespace
characters, in order; leading/trailing/repeated whitespace yields no empty
parts. -/
def pySplit (l : List Char) : List (List Char) := pySplitAux l []

/-- Python `" ".join(ws)`: the parts joined with a single space between
consecutive parts. -/
def joinSp : List (List Char) → List Char
  | [] => []
  | [w] => w
  | w :: ws => w ++ ' ' :: joinSp ws

/-- `normalize_tag` from `src/utils/validators.py`:
`" ".join(tag.strip().split()).lower()`.  Since `str.split()` with no
argument already discards leading and trailing whitespace, the `strip()` is
absorbed into the split; the final `lower()` maps every character of the
joined string. -/
def normalize_tag (tag : String) : String :=
  ⟨(joinSp (pySplit tag.data)).map pyLower⟩

/-- One character of the class `[a-z0-9_-]`: codes 97–122 (`a`–`z`),
48–57 (`0`–`9`), 95 (`_`), 45 (`-`). -/
def isTagChar (c : Char) : Bool :=
  decide ((97 ≤ c.toNat ∧ c.toNat ≤ 122) ∨ (48 ≤ c.toNat ∧ c.toNat ≤ 57) ∨
          c.toNat = 95 ∨ c.toNat = 45)

/-- The body of the pattern `[a-z0-9_-]{1,32}` anchored at both ends:
between 1 and 32 characters, all from the class. -/
def tagBody (l : List Char) : Bool :=
  decide (1 ≤ l.length) && decide (l.length ≤ 32) && l.all isTagChar

/-- Python `re.match` with the pattern `^[a-z0-9_-]{1,32}$` from
`src/utils/validators.py` (`_TAG_RE`): `$` also matches just before a final
newline, so a string consisting of a matching body plus one trailing `\n`
matches as well. -/
def tagReMatch (l : List Char) : Bool :=
  tagBody l || ((l.getLast? == some '\n') && tagBody l.dropLast)

/-- `is_valid_tag` from `src/utils/validators.py`:
`bool(tag) and bool(_TAG_RE.match(tag))`. -/
def is_valid_tag (tag : String) : Bool :=
  !tag.isEmpty && tagReMatch tag.data

/-- Python `str.strip()`: drop leading and trailing whitespace. -/
def stripChars (l : List Char) : List Char :=
  ((l.dropWhile isPySpace).reverse.dropWhile isPySpace).reverse

/-- Python `s.split(",")`: split at every comma, keeping empty parts. -/
def splitCommaL : List Char → List (List Char)
  | [] => [[]]
  | c :: cs =>
    if c = ',' then [] :: splitCommaL cs
    else
      match splitCommaL cs with
      | [] => [[c]]
      | w :: ws => (c :: w) :: ws

/-- `split_tags_string` from `src/utils/validators.py`: empty input gives
`[]`; otherwise split on commas, strip each part, and drop empty parts
(no case normalization here). -/
def split_tags_string (s : String) : List String :=
  if s.isEmpty then []
  else
    (((splitCommaL s.data).map stripChars).filter (fun p => !p.isEmpty)).map
      (fun p => ⟨p⟩)

/-- A calendar date as stored in a contact's birthday (`DD.MM.YYYY`). -/
structure BDate where
  day : Nat
  month : Nat
  year : Nat
deriving DecidableEq

/-- Modelled from the spec: the `Note` model class (`src/models/note.py` is
not among the sources) — a name (key), free text content, and a set of
normalized tags, kept here as a list. -/
structure Note where
  name : String
  content : String
  tags : List String
deriving DecidableEq

/-- Modelled from the spec: the `Record` model class (`src/models/record.py`
is not among the sources) — one person's name, ordered phones, optional
birthday, tag set (list without duplicates) and notes (names unique). -/
structure Record where
  name : String
  phones : List String
  birthday : Option BDate
  tags : List String
  notes : List Note
deriving DecidableEq

/-- Modelled from the spec: the address book (`src/models/address_book.py` is
not among the sources) is an ordered mapping of contact name to record,
embedded as an association list in insertion order; keys are unique in every
state the Python dict can reach. -/
abbrev AddressBook : Type := List (String × Record)

/-- Dictionary lookup `self.address_book.find(name)`. -/
def findRecord (book : AddressBook) (name : String) : Option Record :=
  (book.find? (fun p => p.1 == name)).map (fun p => p.2)

/-- Python mutates the record object in place through the reference returned
by `find`; on the association list this rebinds the entries stored under
`name`. -/
def updateRecord (book : AddressBook) (name : String) (r : Record) :
    AddressBook :=
  book.map (fun p => if p.1 == name then (p.1, r) else p)

/-- The typed error conditions surfaced by the services.  Python raises
`ValueError` with distinguishable messages; the spec names the conditions
(`NotFound`, `InvalidTag`, `InvalidPhone`, duplicate note names). -/
inductive Err where
  | notFound (msg : String)
  | invalidTag (msg : String)
  | invalidPhone (msg : String)
  | duplicate (msg : String)
deriving DecidableEq

/-- Boolean string order used by the Python `sorted(...)` calls. -/
def strLe (a b : String) : Bool := decide (a ≤ b)

/-- `Record.find_note`: the note stored under `noteName`, if any. -/
def find_note (r : Record) (noteName : String) : Option Note :=
  r.notes.find? (fun n => n.name == noteName)

/-- Modelled from the spec: `Record.add_note` — note names are unique within
a record, so adding an existing name fails; otherwise the note is appended
with empty tag set. -/
def record_add_note (r : Record) (noteName content : String) :
    Except Err Record :=
  match find_note r noteName with
  | some _ => .error (.duplicate ("Note '" ++ noteName ++ "' already exists."))
  | none => .ok { r with notes := r.notes ++ [⟨noteName, content, []⟩] }

/-- Modelled from the spec: `Record.edit_note` — fails with `NotFound` when
the note is absent, otherwise replaces the content. -/
def record_edit_note (r : Record) (noteName content : String) :
    Except Err Record :=
  match find_note r noteName with
  | none => .error (.notFound ("Note '" ++ noteName ++ "' not found."))
  | some _ =>
    .ok { r with notes := r.notes.map (fun n =>
      if n.name == noteName then { n with content := content } else n) }

/-- Modelled from the spec: `Record.delete_note` — fails with `NotFound` when
the note is absent. -/
def record_delete_note (r : Record) (noteName : String) : Except Err Record :=
  match find_note r noteName with
  | none => .error (.notFound ("Note '" ++ noteName ++ "' not found."))
  | some _ =>
    .ok { r with notes := r.notes.filter (fun n => !(n.name == noteName)) }

/-- `Record.list_notes`: all notes of the record. -/
def record_list_notes (r : Record) : List Note := r.notes

/-- Modelled from the spec: `Record.note_add_tag` — fails with `NotFound`
when the note is absent; adding a tag already present is idempotent. -/
def record_note_add_tag (r : Record) (noteName tag : String) :
    Except Err Record :=
  match find_note r noteName with
  | none => .error (.notFound ("Note '" ++ noteName ++ "' not found."))
  | some n =>
    if tag ∈ n.tags then .ok r
    else .ok { r with notes := r.notes.map (fun m =>
      if m.name == noteName then { m with tags := m.tags ++ [tag] } else m) }

/-- Modelled from the spec: `Record.note_remove_tag` — fails with `NotFound`
when the note is absent or when the tag is not on the note. -/
def record_note_remove_tag (r : Record) (noteName tag : String) :
    Except Err Record :=
  match find_note r noteName with
  | none => .error (.notFound ("Note '" ++ noteName ++ "' not found."))
  | some n =>
    if tag ∈ n.tags then
      .ok { r with notes := r.notes.map (fun m =>
        if m.name == noteName then
          { m with tags := m.tags.filter (fun t => !(t == tag)) }
        else m) }
    else .error (.notFound ("Tag '" ++ tag ++ "' not found."))

/-- Modelled from the spec: `Record.note_clear_tags` — fails with `NotFound`
when the note is absent, otherwise empties the note's tag set. -/
def record_note_clear_tags (r : Record) (noteName : String) :
    Except Err Record :=
  match find_note r noteName with
  | none => .error (.notFound ("Note '" ++ noteName ++ "' not found."))
  | some _ =>
    .ok { r with notes := r.notes.map (fun m =>
      if m.name == noteName then { m with tags := [] } else m) }

/-- Modelled from the spec: `Record.note_list_tags` — fails with `NotFound`
when the note is absent, otherwise the sorted tag list. -/
def record_note_list_tags (r : Record) (noteName : String) :
    Except Err (List String) :=
  match find_note r noteName with
  | none => .error (.notFound ("Note '" ++ noteName ++ "' not found."))
  | some n => .ok (n.tags.mergeSort strLe)

/-- `NoteService.has_contacts`: `len(self.address_book.data) > 0`. -/
def ns_has_contacts (book : AddressBook) : Bool × AddressBook :=
  (decide (0 < book.length), book)

/-- `NoteService.list_contacts`: `(name, phones_str)` pairs, phones joined
with `", "` or the `"No phone"` sentinel, sorted by contact name. -/
def ns_list_contacts (book : AddressBook) :
    List (String × String) × AddressBook :=
  ((book.map (fun p =>
      (p.1, if p.2.phones.isEmpty then "No phone"
            else String.intercalate ", " p.2.phones))).mergeSort
    (fun a b => strLe a.1 b.1), book)

/-- The `ValueError` raised by every `NoteService` operation when the
contact is absent. -/
def contactNotFound (contact_name : String) : Err :=
  .notFound ("Contact '" ++ contact_name ++ "' not found.")

/-- `NoteService.add_note`. -/
def ns_add_note (book : AddressBook) (contact_name note_name content : String) :
    Except Err String × AddressBook :=
  match findRecord book contact_name with
  | none => (.error (contactNotFound contact_name), book)
  | some r =>
    match record_add_note r note_name content with
    | .error e => (.error e, book)
    | .ok r' =>
      (.ok ("Note '" ++ note_name ++ "' added to " ++ contact_name ++ "."),
       updateRecord book contact_name r')

/-- `NoteService.edit_note`. -/
def ns_edit_note (book : AddressBook) (contact_name note_name content : String) :
    Except Err String × AddressBook :=
  match findRecord book contact_name with
  | none => (.error (contactNotFound contact_name), book)
  | some r =>
    match record_edit_note r note_name content with
    | .error e => (.error e, book)
    | .ok r' =>
      (.ok ("Note '" ++ note_name ++ "' updated for " ++ contact_name ++ "."),
       updateRecord book contact_name r')

/-- `NoteService.delete_note`. -/
def ns_delete_note (book : AddressBook) (contact_name note_name : String) :
    Except Err String × AddressBook :=
  match findRecord book contact_name with
  | none => (.error (contactNotFound contact_name), book)
  | some r =>
    match record_delete_note r note_name with
    | .error e => (.error e, book)
    | .ok r' =>
      (.ok ("Note '" ++ note_name ++ "' deleted from " ++ contact_name ++ "."),
       updateRecord book contact_name r')

/-- `NoteService.list_notes`. -/
def ns_list_notes (book : AddressBook) (contact_name : String) :
    Except Err (List Note) × AddressBook :=
  match findRecord book contact_name with
  | none => (.error (contactNotFound contact_name), book)
  | some r => (.ok (record_list_notes r), book)

/-- `NoteService.get_note`. -/
def ns_get_note (book : AddressBook) (contact_name note_name : String) :
    Except Err Note × AddressBook :=
  match findRecord book contact_name with
  | none => (.error (contactNotFound contact_name), book)
  | some r =>
    match find_note r note_name with
    | none =>
      (.error (.notFound ("Note '" ++ note_name ++ "' not found for " ++
                          contact_name ++ ".")), book)
    | some n => (.ok n, book)

/-- `NoteService.note_add_tag`: normalizes the tag, validates it with
`is_valid_tag` (raising `InvalidTag` otherwise), then applies it to the
note. -/
def ns_note_add_tag (book : AddressBook) (contact_name note_name tag : String) :
    Except Err String × AddressBook :=
  match findRecord book contact_name with
  | none => (.error (contactNotFound contact_name), book)
  | some r =>
    if is_valid_tag (normalize_tag tag) then
      match record_note_add_tag r note_name (normalize_tag tag) with
      | .error e => (.error e, book)
      | .ok r' =>
        (.ok ("Tag '" ++ normalize_tag tag ++ "' added to note '" ++
              note_name ++ "'."),
         updateRecord book contact_name r')
    else (.error (.invalidTag ("Invalid tag: '" ++ tag ++ "'")), book)

/-- `NoteService.note_remove_tag`: normalizes the tag and applies the
removal directly — unlike `ns_note_add_tag` it performs no
`is_valid_tag` check. -/
def ns_note_remove_tag (book : AddressBook)
    (contact_name note_name tag : String) :
    Except Err String × AddressBook :=
  match findRecord book contact_name with
  | none => (.error (contactNotFound contact_name), book)
  | some r =>
    match record_note_remove_tag r note_name (normalize_tag tag) with
    | .error e => (.error e, book)
    | .ok r' =>
      (.ok ("Tag '" ++ normalize_tag tag ++ "' removed from note '" ++
            note_name ++ "'."),
       updateRecord book contact_name r')

/-- `NoteService.note_clear_tags`. -/
def ns_note_clear_tags (book : AddressBook) (contact_name note_name : String) :
    Except Err String × AddressBook :=
  match findRecord book contact_name with
  | none => (.error (contactNotFound contact_name), book)
  | some r =>
    match record_note_clear_tags r note_name with
    | .error e => (.error e, book)
    | .ok r' =>
      (.ok ("All tags cleared from note '" ++ note_name ++ "'."),
       updateRecord book contact_name r')

/-- `NoteService.note_list_tags`. -/
def ns_note_list_tags (book : AddressBook) (contact_name note_name : String) :
    Except Err (List String) × AddressBook :=
  match findRecord book contact_name with
  | none => (.error (contactNotFound contact_name), book)
  | some r => (record_note_list_tags r note_name, book)

/-- A concrete address book for exercising the note-tag operations: contact
`alice` has one note `n` carrying the (non-`is_valid_tag`) tag
`"bad tag"`. -/
def c7Book : AddressBook :=
  [("alice", { name := "alice", phones := [], birthday := none, tags := [],
               notes := [{ name := "n", content := "", tags := ["bad tag"] }] })]

def isLeapYear (y : Nat) : Bool :=
  (y % 4 == 0 && y % 100 != 0) || y % 400 == 0

def daysInMonth (m y : Nat) : Nat :=
  if m = 2 then (if isLeapYear y then 29 else 28)
  else if m = 4 ∨ m = 6 ∨ m = 9 ∨ m = 11 then 30
  else 31

/-- A day/month/year triple that `datetime.date` accepts. -/
def validDate (d m y : Nat) : Bool :=
  decide (1 ≤ y) && decide (1 ≤ m) && decide (m ≤ 12) && decide (1 ≤ d) &&
  decide (d ≤ daysInMonth m y)

/-- The day number of the Gregorian date `y-m-d` (days since 0000-03-01). -/
def dayNumber (y m d : Nat) : Nat :=
  let y' := if m ≤ 2 then y - 1 else y
  let era := y' / 400
  let yoe := y' % 400
  let mp := if 2 < m then m - 3 else m + 9
  let doy := (153 * mp + 2) / 5 + d - 1
  era * 146097 + yoe * 365 + yoe / 4 - yoe / 100 + doy

/-- Python's `date.weekday()` on a day number: Monday = 0 … Sunday = 6. -/
def weekday (n : Nat) : Nat := (n + 2) % 7

/-- Inverse of `dayNumber`: the `(day, month, year)` of a day number. -/
def civilFromDayNumber (n : Nat) : Nat × Nat × Nat :=
  let era := n / 146097
  let doe := n % 146097
  let yoe := (doe - doe / 1460 + doe / 36524 - doe / 146096) / 365
  let y' := yoe + era * 400
  let doy := doe - (365 * yoe + yoe / 4 - yoe / 100)
  let mp := (5 * doy + 2) / 153
  let d := doy - (153 * mp + 2) / 5 + 1
  let m := if mp < 10 then mp + 3 else mp - 9
  if m ≤ 2 then (d, m, y' + 1) else (d, m, y')

def pad2 (n : Nat) : String :=
  if n < 10 then "0" ++ toString n else toString n

def pad4 (n : Nat) : String :=
  if n < 10 then "000" ++ toString n
  else if n < 100 then "00" ++ toString n
  else if n < 1000 then "0" ++ toString n
  else toString n

/-- `strftime("%d.%m.%Y")` of a day number. -/
def fmtDayNumber (n : Nat) : String :=
  match civilFromDayNumber n with
  | (d, m, y) => pad2 d ++ "." ++ pad2 m ++ "." ++ pad4 y

/-- The closed set of sort keys of `ContactService.list_contacts`. -/
inductive ContactSortBy where
  | NAME
  | PHONE
  | BIRTHDAY
  | TAG_COUNT
  | TAG_NAME
deriving DecidableEq

/-- `Record.tags_list()`: the record's tags as a sorted list. -/
def tags_list (r : Record) : List String := r.tags.mergeSort strLe

/-- The number of tags on a record. -/
def tagCount (r : Record) : Nat := r.tags.length

/-- Ascending order on birthdays (year, then month, then day). -/
def bdateLe (a b : BDate) : Bool :=
  decide (a.year < b.year) ||
  (a.year == b.year &&
    (decide (a.month < b.month) ||
      (a.month == b.month && decide (a.day ≤ b.day))))

/-- Lifts an order so that records lacking the key (`none`) sort last. -/
def optLast {α : Type} (le : α → α → Bool) : Option α → Option α → Bool
  | none, none => true
  | none, some _ => false
  | some _, none => true
  | some x, some y => le x y

/-- The `TAG_COUNT` comparison: tag count descending, ties broken by the
contact name ascending. -/
def tagCountLe (a b : String × Record) : Bool :=
  decide (tagCount b.2 < tagCount a.2) ||
  (tagCount a.2 == tagCount b.2 && strLe a.1 b.1)

/-- Modelled from the spec: `ContactService.list_contacts(sort_by)`
(`contact_service.py` is absent from `src/`) — a stable sort of the book's
`(name, record)` pairs by the selected key: `NAME` alphabetical, `PHONE` by
first phone with phoneless contacts last, `BIRTHDAY` ascending with undated
contacts last, `TAG_COUNT` descending by tag count with name-ascending
ties, `TAG_NAME` by the comma-joined sorted tag list (no tags sort first,
via the empty string), and no key preserves book order. -/
def list_contacts (book : AddressBook) :
    Option ContactSortBy → List (String × Record)
  | none => book
  | some .NAME => book.mergeSort (fun a b => strLe a.1 b.1)
  | some .PHONE =>
    book.mergeSort (fun a b => optLast strLe a.2.phones.head? b.2.phones.head?)
  | some .BIRTHDAY =>
    book.mergeSort (fun a b => optLast bdateLe a.2.birthday b.2.birthday)
  | some .TAG_COUNT => book.mergeSort tagCountLe
  | some .TAG_NAME =>
    book.mergeSort (fun a b =>
      strLe (String.intercalate "," (tags_list a.2))
            (String.intercalate "," (tags_list b.2)))

/-- Caller-supplied tags: a comma-separated string or an explicit list. -/
inductive TagsInput where
  | str (s : String)
  | list (l : List String)

/-- Modelled from the spec: `ContactService._prepare_tags` — a string input
is split on commas by `split_tags_string`, every element is normalized with
`normalize_tag`, and the call fails with `InvalidTag` as soon as any
normalized element fails `is_valid_tag`. -/
def _prepare_tags (input : TagsInput) : Except Err (List String) :=
  let raw := match input with
    | .str s => split_tags_string s
    | .list l => l
  let norm := raw.map normalize_tag
  if norm.all is_valid_tag then .ok norm
  else .error (.invalidTag "Invalid tag")

/-- Modelled from the spec: `ContactService.find_by_tags_all(tags)` — AND
semantics: the contacts whose tag set contains every prepared tag, in book
order; an empty prepared tag list yields the empty result, never the whole
book. -/
def find_by_tags_all (book : AddressBook) (input : TagsInput) :
    Except Err (List (String × Record)) :=
  match _prepare_tags input with
  | .error e => .error e
  | .ok req =>
    if req.isEmpty then .ok []
    else .ok (book.filter (fun p => req.all (fun t => p.2.tags.contains t)))

/-- Modelled from the spec: `ContactService.find_by_tags_any(tags)` — OR
semantics: the contacts whose tag set intersects the prepared tags; an
empty prepared tag list yields the empty result. -/
def find_by_tags_any (book : AddressBook) (input : TagsInput) :
    Except Err (List (String × Record)) :=
  match _prepare_tags input with
  | .error e => .error e
  | .ok req =>
    if req.isEmpty then .ok []
    else .ok (book.filter (fun p => req.any (fun t => p.2.tags.contains t)))

/-- The phone format accepted by the service (`validate_phone` in
`src/utils/validators.py`): only digits, exactly 10 of them. -/
def isValidPhone (p : String) : Bool :=
  p.data.all (fun c => c.isDigit) && p.length == 10

/-- Modelled from the spec: `ContactService.add_contact(name, phone)` —
validates the phone (10 digits, else `InvalidPhone`); appends the phone to
an existing record and answers `"Contact updated."`, or creates a fresh
record holding just this phone and answers `"Contact added."`. -/
def add_contact (book : AddressBook) (name phone : String) :
    Except Err String × AddressBook :=
  if isValidPhone phone then
    match findRecord book name with
    | some r =>
      (.ok "Contact updated.",
       updateRecord book name { r with phones := r.phones ++ [phone] })
    | none =>
      (.ok "Contact added.", book ++ [(name, ⟨name, [phone], none, [], []⟩)])
  else (.error (.invalidPhone "Phone number must be exactly 10 digits"), book)

/-- One row of `_calculate_upcoming_birthdays`: Python's
`{"name": …, "congratulation_date": …}` dictionary, the date already
formatted as `DD.MM.YYYY`. -/
structure BirthdayEntry where
  name : String
  congratulation_date : String
deriving DecidableEq

/-- Days added by the weekend roll-forward of the congratulation date:
Saturday (weekday 5) advances 2 days, Sunday (weekday 6) advances 1 day. -/
def wkAdjust (n : Nat) : Nat :=
  if weekday n = 5 then 2 else if weekday n = 6 then 1 else 0

/-- Modelled from the spec:
`ContactService._calculate_upcoming_birthdays(days)` — for every contact
with a birthday, this year's occurrence of the day/month is taken (skipped
when that day/month does not exist in the current year, as contacts with
unparsable dates are skipped); with `delta = occurrence - today` in days
the contact is included iff `0 ≤ delta ≤ days`, and the reported
congratulation date is the occurrence rolled forward past the weekend. -/
def _calculate_upcoming_birthdays (today : BDate) (book : AddressBook)
    (days : Nat) : List BirthdayEntry :=
  book.filterMap (fun p =>
    match p.2.birthday with
    | none => none
    | some b =>
      if validDate b.day b.month today.year then
        if 0 ≤ (dayNumber today.year b.month b.day : Int) -
               (dayNumber today.year today.month today.day : Int) ∧
           (dayNumber today.year b.month b.day : Int) -
               (dayNumber today.year today.month today.day : Int) ≤ (days : Int)
        then
          some ⟨p.1, fmtDayNumber (dayNumber today.year b.month b.day +
                  wkAdjust (dayNumber today.year b.month b.day))⟩
        else none
      else none)

/-- Python's `"\n".join`. -/
def joinLines : List String → String
  | [] => ""
  | [x] => x
  | x :: xs => x ++ "\n" ++ joinLines xs

/-- Modelled from the spec: `ContactService.get_upcoming_birthdays(days)` —
one `name: date` line per entry, or the sentinel text when no birthday is
in range. -/
def get_upcoming_birthdays (today : BDate) (book : AddressBook)
    (days : Nat) : String :=
  match _calculate_upcoming_birthdays today book days with
  | [] => "No upcoming birthdays."
  | entries =>
    joinLines (entries.map (fun e => e.name ++ ": " ++ e.congratulation_date))

def pavloRec : Record :=
  { name := "Pavlo", phones := ["3333333333"], birthday := some ⟨15, 5, 1990⟩,
    tags := ["ml", "ai"], notes := [] }

def annaRec : Record :=
  { name := "Anna", phones := ["1111111111"], birthday := some ⟨1, 1, 1980⟩,
    tags := ["ai"], notes := [] }

def illiaRec : Record :=
  { name := "Illia", phones := ["2222222222"], birthday := none,
    tags := [], notes := [] }

def sampleBook : AddressBook :=
  [("Pavlo", pavloRec), ("Anna", annaRec), ("Illia", illiaRec)]

/-! ## Theorems -/

theorem lowerNat_isValidChar {n : Nat} (h : n.isValidChar) :
    (lowerNat n).isValidChar := by
  unfold Nat.isValidChar at h ⊢
  unfold lowerNat
  split <;> omega

theorem toNat_charOfNat {n : Nat} (h : n.isValidChar) :
    (Char.ofNat n).toNat = n := by
  simp only [Char.ofNat, dif_pos h]
  simp [Char.ofNatAux, Char.toNat, UInt32.toNat]

theorem char_toNat_isValidChar (c : Char) : c.toNat.isValidChar := c.valid

theorem pyLower_toNat (c : Char) : (pyLower c).toNat = lowerNat c.toNat :=
  toNat_charOfNat (lowerNat_isValidChar (char_toNat_isValidChar c))

theorem lowerNat_idem (n : Nat) : lowerNat (lowerNat n) = lowerNat n := by
  unfold lowerNat
  split
  · split <;> omega
  · rfl

theorem pyLower_idem (c : Char) : pyLower (pyLower c) = pyLower c := by
  show Char.ofNat (lowerNat (pyLower c).toNat) = pyLower c
  rw [pyLower_toNat, lowerNat_idem]
  rfl

theorem isPySpace_pyLower (c : Char) : isPySpace (pyLower c) = isPySpace c := by
  simp only [isPySpace, pyLower_toNat, decide_eq_decide]
  unfold lowerNat
  split <;> omega

theorem pySplitAux_nil (acc : List Char) :
    pySplitAux [] acc = if acc.isEmpty then [] else [acc.reverse] := rfl

theorem pySplitAux_cons (c : Char) (cs acc : List Char) :
    pySplitAux (c :: cs) acc =
      if isPySpace c then
        if acc.isEmpty then pySplitAux cs []
        else acc.reverse :: pySplitAux cs []
      else pySplitAux cs (c :: acc) := rfl

theorem pySplitAux_words {l : List Char} :
    ∀ {acc w : List Char}, (∀ c ∈ acc, isPySpace c = false) →
      w ∈ pySplitAux l acc → w ≠ [] ∧ ∀ c ∈ w, isPySpace c = false := by
  induction l with
  | nil =>
    intro acc w hacc hw
    rw [pySplitAux_nil] at hw
    by_cases h : acc.isEmpty
    · simp [h] at hw
    · rw [if_neg h] at hw
      simp only [List.mem_singleton] at hw
      subst hw
      refine ⟨?_, ?_⟩
      · simp only [List.isEmpty_eq_true] at h
        simpa using h
      · intro c hc
        exact hacc c (List.mem_reverse.mp hc)
  | cons c cs ih =>
    intro acc w hacc hw
    rw [pySplitAux_cons] at hw
    by_cases hc : isPySpace c
    · rw [if_pos hc] at hw
      by_cases h : acc.isEmpty
      · rw [if_pos h] at hw
        exact ih (by simp) hw
      · rw [if_neg h] at hw
        rcases List.mem_cons.mp hw with rfl | hw'
        · refine ⟨?_, ?_⟩
          · simp only [List.isEmpty_eq_true] at h
            simpa using h
          · intro d hd
            exact hacc d (List.mem_reverse.mp hd)
        · exact ih (by simp) hw'
    · rw [if_neg hc] at hw
      refine ih ?_ hw
      intro d hd
      rcases List.mem_cons.mp hd with rfl | hd'
      · exact Bool.eq_false_iff.mpr hc
      · exact hacc d hd'

/-- Every word produced by `pySplit` is nonempty and contains no whitespace. -/
theorem pySplit_words {l w : List Char} (hw : w ∈ pySplit l) :
    w ≠ [] ∧ ∀ c ∈ w, isPySpace c = false :=
  pySplitAux_words (by simp) hw

theorem pySplitAux_append {u : List Char}
    (hu : ∀ c ∈ u, isPySpace c = false) (x acc : List Char) :
    pySplitAux (u ++ x) acc = pySplitAux x (u.reverse ++ acc) := by
  induction u generalizing acc with
  | nil => simp
  | cons c u ih =>
    have hc : isPySpace c = false := hu c (by simp)
    show pySplitAux (c :: (u ++ x)) acc = _
    rw [pySplitAux_cons]
    rw [if_neg (by simp [hc])]
    rw [ih (fun d hd => hu d (by simp [hd])) (c :: acc)]
    congr 1
    simp

/-- Splitting the space-joined list of nonempty whitespace-free words
recovers exactly the words. -/
theorem pySplit_joinSp {ws : List (List Char)}
    (h : ∀ w ∈ ws, w ≠ [] ∧ ∀ c ∈ w, isPySpace c = false) :
    pySplit (joinSp ws) = ws := by
  induction ws with
  | nil => rfl
  | cons w ws ih =>
    obtain ⟨hne, hfree⟩ := h w (by simp)
    cases ws with
    | nil =>
      show pySplitAux w [] = [w]
      have ha := pySplitAux_append hfree [] []
      rw [List.append_nil] at ha
      rw [ha]
      rw [List.append_nil, pySplitAux_nil]
      rw [if_neg (by simpa using hne)]
      simp
    | cons w' ws' =>
      show pySplitAux (w ++ ' ' :: joinSp (w' :: ws')) [] = _
      rw [pySplitAux_append hfree]
      rw [List.append_nil, pySplitAux_cons]
      rw [if_pos (by decide), if_neg (by simpa using hne)]
      rw [show pySplitAux (joinSp (w' :: ws')) [] =
            pySplit (joinSp (w' :: ws')) from rfl]
      rw [ih (fun v hv => h v (by simp [hv]))]
      simp

theorem map_pyLower_joinSp (ws : List (List Char)) :
    (joinSp ws).map pyLower = joinSp (ws.map (fun w => w.map pyLower)) := by
  induction ws with
  | nil => simp [joinSp]
  | cons w ws ih =>
    cases ws with
    | nil => simp [joinSp]
    | cons w' ws' =>
      show (w ++ ' ' :: joinSp (w' :: ws')).map pyLower = _
      rw [List.map_append, List.map_cons, ih]
      have : pyLower ' ' = ' ' := by decide
      rw [this]
      rfl

/-- C8 core: `normalize_tag` is idempotent. -/
theorem normalize_tag_idem_data (l : List Char) :
    (joinSp (pySplit ((joinSp (pySplit l)).map pyLower))).map pyLower =
      (joinSp (pySplit l)).map pyLower := by
  set ws := pySplit l with hws
  have hwords : ∀ w ∈ ws, w ≠ [] ∧ ∀ c ∈ w, isPySpace c = false :=
    fun w hw => pySplit_words (hws ▸ hw)
  have hwords' : ∀ w ∈ ws.map (fun w => w.map pyLower),
      w ≠ [] ∧ ∀ c ∈ w, isPySpace c = false := by
    intro w hw
    obtain ⟨v, hv, rfl⟩ := List.mem_map.mp hw
    obtain ⟨hne, hfree⟩ := hwords v hv
    constructor
    · simpa using hne
    · intro c hc
      obtain ⟨d, hd, rfl⟩ := List.mem_map.mp hc
      rw [isPySpace_pyLower]
      exact hfree d hd
  rw [map_pyLower_joinSp ws, pySplit_joinSp hwords',
      map_pyLower_joinSp (ws.map (fun w => w.map pyLower))]
  congr 1
  rw [List.map_map]
  apply List.map_congr_left
  intro w _
  show (w.map pyLower).map pyLower = w.map pyLower
  rw [List.map_map]
  apply List.map_congr_left
  intro c _
  exact pyLower_idem c

/-- C8: `normalize_tag` is a total Lean function on strings (it is defined for
every input and never fails), and it is idempotent:
`normalize_tag (normalize_tag x) = normalize_tag x` for every string `x`. -/
theorem normalize_tag_idempotent (x : String) :
    normalize_tag (normalize_tag x) = normalize_tag x := by
  apply String.ext
  show (joinSp (pySplit ((joinSp (pySplit x.data)).map pyLower))).map pyLower = _
  exact normalize_tag_idem_data x.data

theorem tagBody_eq_false_of_space {l : List Char} (h : ' ' ∈ l) :
    tagBody l = false := by
  have hall : l.all isTagChar = false :=
    List.all_eq_false.mpr ⟨' ', h, by decide⟩
  simp [tagBody, hall]

theorem joinSp_cons_ne_nil {w : List Char} (hw : w ≠ [])
    (ws : List (List Char)) : joinSp (w :: ws) ≠ [] := by
  cases ws with
  | nil => exact hw
  | cons w' ws' =>
    show w ++ ' ' :: joinSp (w' :: ws') ≠ []
    simp

/-- C9: for every raw tag string in which two runs of non-whitespace
characters are separated by internal whitespace (the split of the raw string
has at least two words), `is_valid_tag (normalize_tag raw)` is `false`:
normalization collapses the internal whitespace to a single space rather
than removing it, and the pattern `^[a-z0-9_-]{1,32}$` admits no space, so
every multi-word tag is rejected regardless of casing or extra
whitespace. -/
theorem multiword_tag_invalid (raw : String)
    (h2 : 2 ≤ (pySplit raw.data).length) :
    is_valid_tag (normalize_tag raw) = false := by
  rcases hws : pySplit raw.data with _ | ⟨w1, _ | ⟨w2, rest⟩⟩
  · rw [hws] at h2
    simp at h2
  · rw [hws] at h2
    simp at h2
  · have hw2 : w2 ∈ pySplit raw.data := by
      rw [hws]
      simp
    obtain ⟨hne2, hfree2⟩ := pySplit_words hw2
    have hjoin : joinSp (w1 :: w2 :: rest) = w1 ++ ' ' :: joinSp (w2 :: rest) :=
      rfl
    have hBne : (joinSp (w2 :: rest)).map pyLower ≠ [] := by
      have := joinSp_cons_ne_nil hne2 rest
      simpa using this
    obtain ⟨b, B, hB⟩ := List.exists_cons_of_ne_nil hBne
    have hn : (normalize_tag raw).data = w1.map pyLower ++ ' ' :: b :: B := by
      show (joinSp (pySplit raw.data)).map pyLower = _
      rw [hws, hjoin, List.map_append, List.map_cons]
      rw [show pyLower ' ' = ' ' from by decide, hB]
    have hsp1 : ' ' ∈ w1.map pyLower ++ ' ' :: b :: B := by simp
    have hsp2 : ' ' ∈ (w1.map pyLower ++ ' ' :: b :: B).dropLast := by
      rw [List.dropLast_append_cons, List.dropLast_cons_of_ne_nil (by simp)]
      simp
    have hre : tagReMatch (w1.map pyLower ++ ' ' :: b :: B) = false := by
      rw [tagReMatch, tagBody_eq_false_of_space hsp1,
          tagBody_eq_false_of_space hsp2]
      simp
    rw [is_valid_tag, hn, hre, Bool.and_false]

/-- Witness for C9: the concrete raw tag `"a b"` (two runs separated by a
space) is rejected after normalization. -/
theorem multiword_tag_invalid_witness :
    2 ≤ (pySplit ("a b").data).length ∧
      is_valid_tag (normalize_tag "a b") = false :=
  ⟨by decide, multiword_tag_invalid "a b" (by decide)⟩

theorem record_note_remove_tag_error {r : Record} {nn t : String} {e : Err}
    (h : record_note_remove_tag r nn t = .error e) : ∃ m, e = .notFound m := by
  unfold record_note_remove_tag at h
  split at h
  · simp only [Except.error.injEq] at h
    exact ⟨_, h.symm⟩
  · split at h
    · simp at h
    · simp only [Except.error.injEq] at h
      exact ⟨_, h.symm⟩

/-- Counterexample for C7: the claim says `note_remove_tag`, like
`note_add_tag`, fails with `InvalidTag` when the normalized tag fails
`is_valid_tag`.  At the concrete input below the normalized tag
`"bad tag"` is invalid, yet `ns_note_remove_tag` succeeds (it performs no
validation at all). -/
theorem note_remove_tag_skips_validation :
    is_valid_tag (normalize_tag "Bad  Tag") = false ∧
    (ns_note_remove_tag c7Book "alice" "n" "Bad  Tag").1 =
      .ok "Tag 'bad tag' removed from note 'n'." := by
  refine ⟨by decide, ?_⟩
  rfl

/-- C7 (amended): `note_add_tag` normalizes and validates — it fails with
`InvalidTag` when the normalized tag fails `is_valid_tag`; both operations
fail with `NotFound` when the contact is absent; but `note_remove_tag`
performs no tag validation and can only fail with a `NotFound`
condition, never with `InvalidTag`. -/
theorem note_tag_validation (book : AddressBook) (cn nn tag : String) :
    (findRecord book cn = none →
      (ns_note_add_tag book cn nn tag).1 = .error (contactNotFound cn) ∧
      (ns_note_remove_tag book cn nn tag).1 = .error (contactNotFound cn)) ∧
    (∀ r, findRecord book cn = some r →
      is_valid_tag (normalize_tag tag) = false →
      (ns_note_add_tag book cn nn tag).1 =
        .error (.invalidTag ("Invalid tag: '" ++ tag ++ "'"))) ∧
    (∀ e, (ns_note_remove_tag book cn nn tag).1 = .error e →
      ∃ m, e = Err.notFound m) := by
  refine ⟨?_, ?_, ?_⟩
  · intro h
    unfold ns_note_add_tag ns_note_remove_tag
    rw [h]
    exact ⟨rfl, rfl⟩
  · intro r hr hv
    unfold ns_note_add_tag
    rw [hr]
    simp [hv]
  · intro e he
    unfold ns_note_remove_tag at he
    split at he
    · simp only [Except.error.injEq] at he
      exact ⟨_, he.symm⟩
    · split at he
      · rename_i e' hrem
        simp only [Except.error.injEq] at he
        subst he
        exact record_note_remove_tag_error hrem
      · simp at he

/-- Witness for C7 (amended): on the empty book both operations report the
missing contact, and on `c7Book` an invalid raw tag makes `note_add_tag`
fail with `InvalidTag`. -/
theorem note_tag_validation_witness :
    ((ns_note_add_tag [] "x" "n" "t").1 = .error (contactNotFound "x") ∧
     (ns_note_remove_tag [] "x" "n" "t").1 = .error (contactNotFound "x")) ∧
    (ns_note_add_tag c7Book "alice" "n" "Bad  Tag").1 =
      .error (.invalidTag "Invalid tag: 'Bad  Tag'") :=
  ⟨(note_tag_validation [] "x" "n" "t").1 rfl,
   (note_tag_validation c7Book "alice" "n" "Bad  Tag").2.1
     { name := "alice", phones := [], birthday := none, tags := [],
       notes := [{ name := "n", content := "", tags := ["bad tag"] }] }
     rfl (by decide)⟩

/-- C10: the `NoteService` query operations — `has_contacts`,
`list_contacts`, `list_notes`, `get_note`, `note_list_tags` — mutate
nothing: whether they return a value or fail with `NotFound`, the address
book after the call (every contact with its phones, birthday, tags and
notes) is exactly the address book before it. -/
theorem note_service_queries_pure (book : AddressBook) (cn nn : String) :
    (ns_has_contacts book).2 = book ∧
    (ns_list_contacts book).2 = book ∧
    (ns_list_notes book cn).2 = book ∧
    (ns_get_note book cn nn).2 = book ∧
    (ns_note_list_tags book cn nn).2 = book := by
  refine ⟨rfl, rfl, ?_, ?_, ?_⟩
  · unfold ns_list_notes
    split <;> rfl
  · unfold ns_get_note
    split
    · rfl
    · split <;> rfl
  · unfold ns_note_list_tags
    split <;> rfl

theorem tagCountLe_trans (a b c : String × Record)
    (h1 : tagCountLe a b = true) (h2 : tagCountLe b c = true) :
    tagCountLe a c = true := by
  simp only [tagCountLe, strLe, Bool.or_eq_true, Bool.and_eq_true,
    decide_eq_true_eq, beq_iff_eq] at h1 h2 ⊢
  rcases h1 with h1 | ⟨h1e, h1s⟩ <;> rcases h2 with h2 | ⟨h2e, h2s⟩
  · exact Or.inl (Nat.lt_trans h2 h1)
  · exact Or.inl (by omega)
  · exact Or.inl (by omega)
  · exact Or.inr ⟨by omega, le_trans h1s h2s⟩

theorem tagCountLe_total (a b : String × Record) :
    (tagCountLe a b || tagCountLe b a) = true := by
  simp only [tagCountLe, strLe, Bool.or_eq_true, Bool.and_eq_true,
    decide_eq_true_eq, beq_iff_eq]
  rcases Nat.lt_trichotomy (tagCount a.2) (tagCount b.2) with h | h | h
  · exact Or.inr (Or.inl h)
  · rcases le_total a.1 b.1 with hs | hs
    · exact Or.inl (Or.inr ⟨h, hs⟩)
    · exact Or.inr (Or.inr ⟨h.symm, hs⟩)
  · exact Or.inl (Or.inl h)

/-- C3: for every address book, `list_contacts` with the `TAG_COUNT` key
orders contacts by number of tags descending — re-extracting the tag counts
from the returned sequence yields a non-increasing sequence — and contacts
with equal tag counts appear in ascending order of name. -/
theorem list_contacts_tag_count_sorted (book : AddressBook) :
    List.Pairwise
      (fun a b => tagCount b.2 ≤ tagCount a.2 ∧
        (tagCount a.2 = tagCount b.2 → a.1 ≤ b.1))
      (list_contacts book (some ContactSortBy.TAG_COUNT)) := by
  have hp := @List.sorted_mergeSort _ tagCountLe tagCountLe_trans
    tagCountLe_total book
  refine hp.imp ?_
  intro a b hab
  simp only [tagCountLe, strLe, Bool.or_eq_true, Bool.and_eq_true,
    decide_eq_true_eq, beq_iff_eq] at hab
  rcases hab with h | ⟨he, hs⟩
  · exact ⟨Nat.le_of_lt h, fun heq => absurd heq (by omega)⟩
  · exact ⟨Nat.le_of_eq he.symm, fun _ => hs⟩

/-- C4: every `(name, record)` pair returned by the AND search
(`find_by_tags_all`) also appears in the result of the OR search
(`find_by_tags_any`) for the same non-empty prepared tag set. -/
theorem tags_all_subset_any (book : AddressBook) (input : TagsInput)
    (req : List String) (hprep : _prepare_tags input = .ok req)
    (hne : req ≠ []) (p : String × Record) (l : List (String × Record))
    (hall : find_by_tags_all book input = .ok l) (hp : p ∈ l) :
    ∃ l2, find_by_tags_any book input = .ok l2 ∧ p ∈ l2 := by
  have hreq : req.isEmpty = false := by simpa using hne
  unfold find_by_tags_all at hall
  rw [hprep] at hall
  simp only [hreq, Bool.false_eq_true, if_false, Except.ok.injEq] at hall
  refine ⟨book.filter (fun q => req.any (fun t => q.2.tags.contains t)), ?_, ?_⟩
  · unfold find_by_tags_any
    rw [hprep]
    simp only [hreq, Bool.false_eq_true, if_false]
  · rw [← hall] at hp
    rw [List.mem_filter] at hp ⊢
    obtain ⟨hpb, hptags⟩ := hp
    refine ⟨hpb, ?_⟩
    obtain ⟨t, ts, rfl⟩ := List.exists_cons_of_ne_nil hne
    simp only [List.all_cons, Bool.and_eq_true] at hptags
    simp only [List.any_cons, Bool.or_eq_true]
    exact Or.inl hptags.1

/-- C5: both tag searches return the empty sequence on an empty tag list,
and on any comma-separated string that yields no tags — an empty query
never matches every contact. -/
theorem empty_tags_empty_result (book : AddressBook) (s : String)
    (hs : split_tags_string s = []) :
    find_by_tags_all book (.list []) = .ok [] ∧
    find_by_tags_any book (.list []) = .ok [] ∧
    find_by_tags_all book (.str s) = .ok [] ∧
    find_by_tags_any book (.str s) = .ok [] := by
  have h1 : _prepare_tags (.list []) = .ok [] := rfl
  have h2 : _prepare_tags (.str s) = .ok [] := by
    unfold _prepare_tags
    simp [hs]
  refine ⟨?_, ?_, ?_, ?_⟩ <;>
    simp [find_by_tags_all, find_by_tags_any, h1, h2]

/-- Witness for C4: on the sample book, the pair for `Pavlo` returned by
`find_by_tags_all ["ai"]` also appears in `find_by_tags_any ["ai"]`. -/
theorem tags_all_subset_any_witness :
    ∃ l2, find_by_tags_any sampleBook (.list ["ai"]) = .ok l2 ∧
      ("Pavlo", pavloRec) ∈ l2 :=
  tags_all_subset_any sampleBook (.list ["ai"]) ["ai"] rfl
    (by decide) ("Pavlo", pavloRec) [("Pavlo", pavloRec), ("Anna", annaRec)]
    rfl (by decide)

/-- Witness for C5: the comma-separated string `", ,"` yields no tags, and
both searches return the empty sequence on the sample book. -/
theorem empty_tags_empty_result_witness :
    find_by_tags_all sampleBook (.list []) = .ok [] ∧
    find_by_tags_any sampleBook (.list []) = .ok [] ∧
    find_by_tags_all sampleBook (.str ", ,") = .ok [] ∧
    find_by_tags_any sampleBook (.str ", ,") = .ok [] :=
  empty_tags_empty_result sampleBook ", ," rfl

theorem findRecord_append_new {book : AddressBook} {name : String}
    (h : findRecord book name = none) (r0 : Record) :
    findRecord (book ++ [(name, r0)]) name = some r0 := by
  have hf : book.find? (fun p => p.1 == name) = none := by
    unfold findRecord at h
    cases hx : book.find? (fun p => p.1 == name) with
    | none => rfl
    | some v =>
      rw [hx] at h
      simp at h
  unfold findRecord
  rw [List.find?_append, hf]
  simp [List.find?_cons]

theorem findRecord_updateRecord {book : AddressBook} {name : String}
    {r : Record} (h : findRecord book name = some r) (r' : Record) :
    findRecord (updateRecord book name r') name = some r' := by
  induction book with
  | nil => simp [findRecord] at h
  | cons p book ih =>
    by_cases hp : (p.1 == name) = true
    · have hpe : p.1 = name := by simpa using hp
      subst hpe
      have hupd : updateRecord (p :: book) p.1 r' =
          (p.1, r') :: updateRecord book p.1 r' := by
        unfold updateRecord
        rw [List.map_cons, if_pos (by simp)]
      rw [hupd]
      unfold findRecord
      rw [List.find?_cons]
      simp
    · have hp' : (p.1 == name) = false := by simpa using hp
      have hfind : findRecord (p :: book) name = findRecord book name := by
        unfold findRecord
        rw [List.find?_cons]
        simp [hp']
      rw [hfind] at h
      have hupd : updateRecord (p :: book) name r' =
          p :: updateRecord book name r' := by
        unfold updateRecord
        rw [List.map_cons, if_neg (by simp [hp'])]
      rw [hupd]
      have hstep : findRecord (p :: updateRecord book name r') name =
          findRecord (updateRecord book name r') name := by
        unfold findRecord
        rw [List.find?_cons]
        simp [hp']
      rw [hstep]
      exact ih h

/-- C6: for a valid 10-digit phone, `add_contact` creates a fresh record
holding exactly this phone and answers `"Contact added."` when the name is
new, and appends the phone to the existing record — the phone count grows
by exactly one — answering `"Contact updated."`; a phone that is not
exactly 10 digits fails with `InvalidPhone`. -/
theorem add_contact_spec (book : AddressBook) (name phone : String) :
    (isValidPhone phone = true →
      (findRecord book name = none →
        (add_contact book name phone).1 = .ok "Contact added." ∧
        (findRecord (add_contact book name phone).2 name).map Record.phones =
          some [phone]) ∧
      (∀ r, findRecord book name = some r →
        (add_contact book name phone).1 = .ok "Contact updated." ∧
        (findRecord (add_contact book name phone).2 name).map
          (fun q => q.phones.length) = some (r.phones.length + 1))) ∧
    (isValidPhone phone = false →
      (add_contact book name phone).1 =
        .error (.invalidPhone "Phone number must be exactly 10 digits")) := by
  constructor
  · intro hv
    constructor
    · intro hnone
      have hbook : add_contact book name phone =
          (.ok "Contact added.",
           book ++ [(name, ⟨name, [phone], none, [], []⟩)]) := by
        unfold add_contact
        rw [if_pos hv]
        simp only [hnone]
      have h1 : (add_contact book name phone).1 = .ok "Contact added." := by
        rw [hbook]
      have h2 : (add_contact book name phone).2 =
          book ++ [(name, ⟨name, [phone], none, [], []⟩)] := by
        rw [hbook]
      refine ⟨h1, ?_⟩
      rw [h2, findRecord_append_new hnone]
      rfl
    · intro r hr
      have hbook : add_contact book name phone =
          (.ok "Contact updated.",
           updateRecord book name { r with phones := r.phones ++ [phone] }) := by
        unfold add_contact
        rw [if_pos hv]
        simp only [hr]
      have h1 : (add_contact book name phone).1 = .ok "Contact updated." := by
        rw [hbook]
      have h2 : (add_contact book name phone).2 =
          updateRecord book name { r with phones := r.phones ++ [phone] } := by
        rw [hbook]
      refine ⟨h1, ?_⟩
      rw [h2, findRecord_updateRecord hr]
      simp
  · intro hv
    unfold add_contact
    rw [if_neg (by simp [hv])]

/-- Witness for C6: adding `Alice` with the valid phone `1234567890` to the
empty book creates her record with exactly this phone, and the 5-digit
phone `12345` is rejected with `InvalidPhone`. -/
theorem add_contact_spec_witness :
    ((add_contact [] "Alice" "1234567890").1 = .ok "Contact added." ∧
     (findRecord (add_contact [] "Alice" "1234567890").2 "Alice").map
       Record.phones = some ["1234567890"]) ∧
    (add_contact [] "Bob" "12345").1 =
      .error (.invalidPhone "Phone number must be exactly 10 digits") :=
  ⟨((add_contact_spec [] "Alice" "1234567890").1 (by decide)).1 rfl,
   (add_contact_spec [] "Bob" "12345").2 (by decide)⟩

theorem mem_assoc_unique {book : AddressBook} {n : String} {r1 r2 : Record}
    (hnod : (book.map Prod.fst).Nodup)
    (h1 : (n, r1) ∈ book) (h2 : (n, r2) ∈ book) : r1 = r2 := by
  induction book with
  | nil => simp at h1
  | cons p book ih =>
    simp only [List.map_cons, List.nodup_cons] at hnod
    rcases List.mem_cons.mp h1 with he1 | h1'
    · rcases List.mem_cons.mp h2 with he2 | h2'
      · rw [← he1] at he2
        injection he2 with hn hr
        exact hr.symm
      · exfalso
        refine hnod.1 ?_
        have hm : n ∈ book.map Prod.fst := List.mem_map_of_mem Prod.fst h2'
        rw [← he1]
        exact hm
    · rcases List.mem_cons.mp h2 with he2 | h2'
      · exfalso
        refine hnod.1 ?_
        have hm : n ∈ book.map Prod.fst := List.mem_map_of_mem Prod.fst h1'
        rw [← he2]
        exact hm
      · exact ih hnod.2 h1' h2'

/-- Elimination principle for membership in the computed birthday list:
every entry comes from a contact of the book whose birthday passes the
validity guard and the unadjusted range filter, and carries the
weekend-adjusted formatted date. -/
theorem calc_mem_elim {today : BDate} {book : AddressBook} {days : Nat}
    {e : BirthdayEntry}
    (he : e ∈ _calculate_upcoming_birthdays today book days) :
    ∃ p ∈ book, ∃ b2, p.2.birthday = some b2 ∧
      validDate b2.day b2.month today.year = true ∧
      (0 ≤ (dayNumber today.year b2.month b2.day : Int) -
            (dayNumber today.year today.month today.day : Int) ∧
       (dayNumber today.year b2.month b2.day : Int) -
            (dayNumber today.year today.month today.day : Int) ≤ (days : Int)) ∧
      e = ⟨p.1, fmtDayNumber (dayNumber today.year b2.month b2.day +
             wkAdjust (dayNumber today.year b2.month b2.day))⟩ := by
  unfold _calculate_upcoming_birthdays at he
  rw [List.mem_filterMap] at he
  obtain ⟨p, hpb, hpf⟩ := he
  refine ⟨p, hpb, ?_⟩
  cases hpb2 : p.2.birthday with
  | none =>
    simp only [hpb2] at hpf
    simp at hpf
  | some b2 =>
    simp only [hpb2] at hpf
    by_cases hv2 : validDate b2.day b2.month today.year = true
    · rw [if_pos hv2] at hpf
      by_cases hc2 : (0 ≤ (dayNumber today.year b2.month b2.day : Int) -
            (dayNumber today.year today.month today.day : Int) ∧
          (dayNumber today.year b2.month b2.day : Int) -
            (dayNumber today.year today.month today.day : Int) ≤ (days : Int))
      · rw [if_pos hc2] at hpf
        simp only [Option.some.injEq] at hpf
        exact ⟨b2, rfl, hv2, hc2, hpf.symm⟩
      · rw [if_neg hc2] at hpf
        simp at hpf
    · rw [if_neg hv2] at hpf
      simp at hpf

/-- Introduction: a contact of the book whose valid occurrence passes the
unadjusted range filter contributes its entry to the computed list. -/
theorem calc_mem_intro {today : BDate} {book : AddressBook} {days : Nat}
    {name : String} {r : Record} {b : BDate}
    (hmem : (name, r) ∈ book) (hb : r.birthday = some b)
    (hval : validDate b.day b.month today.year = true)
    (hcond : 0 ≤ (dayNumber today.year b.month b.day : Int) -
               (dayNumber today.year today.month today.day : Int) ∧
             (dayNumber today.year b.month b.day : Int) -
               (dayNumber today.year today.month today.day : Int) ≤ (days : Int)) :
    (⟨name, fmtDayNumber (dayNumber today.year b.month b.day +
        wkAdjust (dayNumber today.year b.month b.day))⟩ : BirthdayEntry) ∈
      _calculate_upcoming_birthdays today book days := by
  unfold _calculate_upcoming_birthdays
  rw [List.mem_filterMap]
  refine ⟨(name, r), hmem, ?_⟩
  simp only [hb]
  rw [if_pos hval, if_pos hcond]

theorem joinLines_mem {α : Type} (f : α → String) {l : List α} {e : α}
    (he : e ∈ l) :
    ∃ pre post, joinLines (l.map f) = pre ++ f e ++ post := by
  induction l with
  | nil => simp at he
  | cons x xs ih =>
    rcases List.mem_cons.mp he with rfl | he'
    · cases xs with
      | nil =>
        refine ⟨"", "", ?_⟩
        show f e = "" ++ f e ++ ""
        apply String.ext
        simp [String.data_append]
      | cons y ys =>
        refine ⟨"", "\n" ++ joinLines ((y :: ys).map f), ?_⟩
        show f e ++ "\n" ++ joinLines ((y :: ys).map f) = _
        apply String.ext
        simp [String.data_append]
    · obtain ⟨pre, post, hpp⟩ := ih he'
      cases xs with
      | nil => simp at he'
      | cons y ys =>
        refine ⟨f x ++ "\n" ++ pre, post, ?_⟩
        show f x ++ "\n" ++ joinLines ((y :: ys).map f) = _
        rw [hpp]
        apply String.ext
        simp [String.data_append]

/-- C1: a contact with a parsable birthday whose occurrence this year is a
real date is included in `_calculate_upcoming_birthdays days` — and then
named in the string returned by `get_upcoming_birthdays days` — if and only
if `delta`, the number of days from today to this year's occurrence of its
day/month, satisfies `0 ≤ delta ≤ days`; so a birthday today is included,
one exactly `days` away is included, one `days + 1` away is excluded, and a
passed occurrence (negative `delta`) is excluded. -/
theorem upcoming_birthdays_membership (today : BDate) (book : AddressBook)
    (days : Nat) (name : String) (r : Record) (b : BDate)
    (hnod : (book.map Prod.fst).Nodup)
    (hmem : (name, r) ∈ book)
    (hb : r.birthday = some b)
    (hval : validDate b.day b.month today.year = true) :
    ((∃ e ∈ _calculate_upcoming_birthdays today book days, e.name = name) ↔
      (0 ≤ (dayNumber today.year b.month b.day : Int) -
            (dayNumber today.year today.month today.day : Int) ∧
       (dayNumber today.year b.month b.day : Int) -
            (dayNumber today.year today.month today.day : Int) ≤ (days : Int)))
    ∧ ∀ e ∈ _calculate_upcoming_birthdays today book days, e.name = name →
        ∃ pre post,
          get_upcoming_birthdays today book days = pre ++ name ++ post := by
  constructor
  · constructor
    · rintro ⟨e, he, hen⟩
      obtain ⟨p, hpb, b2, hpb2, hv2, hc2, hpe⟩ := calc_mem_elim he
      have hp1 : p.1 = name := by
        rw [hpe] at hen
        exact hen
      have hpb' : (name, p.2) ∈ book := by
        rw [← hp1]
        exact hpb
      have hr2 : p.2 = r := mem_assoc_unique hnod hpb' hmem
      have hbb : b2 = b := by
        rw [hr2, hb] at hpb2
        injection hpb2 with h
        exact h.symm
      rw [hbb] at hc2
      exact hc2
    · intro hcond
      exact ⟨_, calc_mem_intro hmem hb hval hcond, rfl⟩
  · intro e he hen
    have hne : _calculate_upcoming_birthdays today book days ≠ [] :=
      List.ne_nil_of_mem he
    obtain ⟨x, xs, hxs⟩ :=
      List.exists_cons_of_ne_nil hne
    have hget : get_upcoming_birthdays today book days =
        joinLines ((x :: xs).map
          (fun e => e.name ++ ": " ++ e.congratulation_date)) := by
      unfold get_upcoming_birthdays
      rw [hxs]
    obtain ⟨pre, post, hpp⟩ :=
      joinLines_mem (fun e => e.name ++ ": " ++ e.congratulation_date)
        (hxs ▸ he)
    refine ⟨pre, ": " ++ e.congratulation_date ++ post, ?_⟩
    rw [hget, hpp, ← hen]
    apply String.ext
    simp [String.data_append]

/-- Witness for C1: on 12.10.2026 (a Monday) the contact `John` with
birthday 15.10.1990 — occurrence 3 days away — is reported among the
upcoming birthdays for the default 7-day window. -/
theorem upcoming_birthdays_membership_witness :
    ∃ e ∈ _calculate_upcoming_birthdays ⟨12, 10, 2026⟩
        [("John", ⟨"John", ["1234567890"], some ⟨15, 10, 1990⟩, [], []⟩)] 7,
      e.name = "John" :=
  ((upcoming_birthdays_membership ⟨12, 10, 2026⟩
      [("John", ⟨"John", ["1234567890"], some ⟨15, 10, 1990⟩, [], []⟩)] 7
      "John" ⟨"John", ["1234567890"], some ⟨15, 10, 1990⟩, [], []⟩
      ⟨15, 10, 1990⟩ (by decide) (by decide) rfl (by decide)).1).mpr
    (by decide)

/-- C2: for every contact admitted by the upcoming-birthday range filter —
the decision `0 ≤ delta ≤ days` is taken on the unadjusted occurrence date,
which is why it appears as the hypothesis here — the reported
`congratulation_date` is the occurrence plus 2 days when the occurrence
falls on a Saturday (weekday 5) and plus 1 day when it falls on a Sunday
(weekday 6), in both cases the following Monday (weekday 0); on any other
weekday it is the occurrence date itself. -/
theorem upcoming_birthdays_weekend (today : BDate) (book : AddressBook)
    (days : Nat) (name : String) (r : Record) (b : BDate)
    (hnod : (book.map Prod.fst).Nodup)
    (hmem : (name, r) ∈ book)
    (hb : r.birthday = some b)
    (hval : validDate b.day b.month today.year = true)
    (hcond : 0 ≤ (dayNumber today.year b.month b.day : Int) -
               (dayNumber today.year today.month today.day : Int) ∧
             (dayNumber today.year b.month b.day : Int) -
               (dayNumber today.year today.month today.day : Int) ≤ (days : Int)) :
    (∃ e ∈ _calculate_upcoming_birthdays today book days, e.name = name) ∧
    ∀ e ∈ _calculate_upcoming_birthdays today book days, e.name = name →
      (weekday (dayNumber today.year b.month b.day) = 5 →
        e.congratulation_date =
          fmtDayNumber (dayNumber today.year b.month b.day + 2) ∧
        weekday (dayNumber today.year b.month b.day + 2) = 0) ∧
      (weekday (dayNumber today.year b.month b.day) = 6 →
        e.congratulation_date =
          fmtDayNumber (dayNumber today.year b.month b.day + 1) ∧
        weekday (dayNumber today.year b.month b.day + 1) = 0) ∧
      (weekday (dayNumber today.year b.month b.day) ≠ 5 →
       weekday (dayNumber today.year b.month b.day) ≠ 6 →
        e.congratulation_date =
          fmtDayNumber (dayNumber today.year b.month b.day)) := by
  constructor
  · exact ⟨_, calc_mem_intro hmem hb hval hcond, rfl⟩
  · intro e he hen
    obtain ⟨p, hpb, b2, hpb2, hv2, hc2, hpe⟩ := calc_mem_elim he
    have hp1 : p.1 = name := by
      rw [hpe] at hen
      exact hen
    have hpb' : (name, p.2) ∈ book := by
      rw [← hp1]
      exact hpb
    have hr2 : p.2 = r := mem_assoc_unique hnod hpb' hmem
    have hbb : b2 = b := by
      rw [hr2, hb] at hpb2
      injection hpb2 with h
      exact h.symm
    rw [hbb] at hpe
    have hcd : e.congratulation_date =
        fmtDayNumber (dayNumber today.year b.month b.day +
          wkAdjust (dayNumber today.year b.month b.day)) := by
      rw [hpe]
    refine ⟨?_, ?_, ?_⟩
    · intro h5
      constructor
      · rw [hcd]
        unfold wkAdjust
        rw [if_pos h5]
      · unfold weekday at h5 ⊢
        omega
    · intro h6
      constructor
      · rw [hcd]
        unfold wkAdjust
        rw [if_neg (by omega), if_pos h6]
      · unfold weekday at h6 ⊢
        omega
    · intro h5 h6
      rw [hcd]
      unfold wkAdjust
      rw [if_neg h5, if_neg h6, Nat.add_zero]

/-- Witness for C2: on 12.10.2026 (a Monday) the contact `Kate` with
birthday 17.10.1990 has her occurrence on Saturday 17.10.2026 (5 days away,
inside the 7-day window); her congratulation date is Monday 19.10.2026. -/
theorem upcoming_birthdays_weekend_witness :
    (∃ e ∈ _calculate_upcoming_birthdays ⟨12, 10, 2026⟩
        [("Kate", ⟨"Kate", ["1234567890"], some ⟨17, 10, 1990⟩, [], []⟩)] 7,
      e.name = "Kate") ∧
    ∀ e ∈ _calculate_upcoming_birthdays ⟨12, 10, 2026⟩
        [("Kate", ⟨"Kate", ["1234567890"], some ⟨17, 10, 1990⟩, [], []⟩)] 7,
      e.name = "Kate" →
      (weekday (dayNumber 2026 10 17) = 5 →
        e.congratulation_date = fmtDayNumber (dayNumber 2026 10 17 + 2) ∧
        weekday (dayNumber 2026 10 17 + 2) = 0) ∧
      (weekday (dayNumber 2026 10 17) = 6 →
        e.congratulation_date = fmtDayNumber (dayNumber 2026 10 17 + 1) ∧
        weekday (dayNumber 2026 10 17 + 1) = 0) ∧
      (weekday (dayNumber 2026 10 17) ≠ 5 →
       weekday (dayNumber 2026 10 17) ≠ 6 →
        e.congratulation_date = fmtDayNumber (dayNumber 2026 10 17)) :=
  upcoming_birthdays_weekend ⟨12, 10, 2026⟩
    [("Kate", ⟨"Kate", ["1234567890"], some ⟨17, 10, 1990⟩, [], []⟩)] 7
    "Kate" ⟨"Kate", ["1234567890"], some ⟨17, 10, 1990⟩, [], []⟩
    ⟨17, 10, 1990⟩ (by decide) (by decide) rfl (by decide) (by decide)
